import Mathlib

/-!
Shallow embedding of the Game Night Hub round/timer core (src/script.js) and
verification of its specification.

Modelling conventions:
* JS numbers holding integers are modelled as Int (row ids, configured timer
  minutes/seconds, remaining seconds); JS strings as String; JS booleans as Bool.
* The global timers object (script.js line 66), keyed by integer row ids, is
  modelled as an association list kept sorted by ascending key: Object.entries
  enumerates integer-like keys in ascending numeric order, which the sorted
  insertion reproduces.
* setInterval handles are not carried explicitly: in the source an interval is
  scheduled exactly while isRunning is true (startTimer sets both, pauseTimer,
  timerFinished and resetTimer clear both), so a tick callback can only fire on
  a timer whose isRunning is true.
* The localStorage slot is modelled by the parse outcome of the stored string:
  absent slot, a string JSON.parse rejects, or a JSON value.  JSON.parse after
  JSON.stringify is the identity on the values the program writes, which
  justifies carrying the JSON value itself.
* DOM rows are modelled as a list of row records in display order; purely
  visual effects (scrolling, css classes, colors) are either omitted or, where
  a claim needs them, recorded as explicit flags.
-/

namespace GameNight

/-- JSON values as produced by JSON.stringify and consumed by JSON.parse. -/
inductive Json where
  | null : Json
  | bool (b : Bool) : Json
  | num (n : Int) : Json
  | str (s : String) : Json
  | arr (elems : List Json) : Json
  | obj (fields : List (String × Json)) : Json

/-- JS whitespace characters relevant to the regexes and trim in script.js
(ASCII subset of the \s class). -/
def isSpaceChar (c : Char) : Bool :=
  c = ' ' || c = '\t' || c = '\n' || c = '\r' || c = '\x0b' || c = '\x0c'

/-- Word characters of the \w regex class. -/
def isWordChar (c : Char) : Bool :=
  c.isAlphanum || c = '_'

/-- JS String.prototype.trim, stripping whitespace from both ends. -/
def jsTrim (s : String) : String :=
  String.mk (((s.toList.dropWhile isSpaceChar).reverse.dropWhile isSpaceChar).reverse)

/-- Helper for looksLikeHtml: after a literal < character, skip whitespace,
then require a word character followed eventually by a closing >.
Mirrors the tail of the regex at script.js line 148. -/
def afterOpenAngle : List Char → Bool
  | [] => false
  | c :: cs =>
    if isSpaceChar c then afterOpenAngle cs
    else isWordChar c && cs.any (fun d => d = '>')

/-- Scan for a match of the regex used at script.js line 148 to decide whether
a stored prompt already contains HTML.  A match exists exactly when some <
is followed (after optional whitespace) by a word character and, later, a >. -/
def looksLikeHtmlAux : List Char → Bool
  | [] => false
  | c :: cs => (c = '<' && afterOpenAngle cs) || looksLikeHtmlAux cs

/-- Test of the regex at script.js line 148 against a stored prompt. -/
def looksLikeHtml (s : String) : Bool :=
  looksLikeHtmlAux s.toList

/-- Escape one character the way the replacement chain in escapeHtml does. -/
def escapeHtmlChar (c : Char) : String :=
  if c = '&' then "&amp;"
  else if c = '<' then "&lt;"
  else if c = '>' then "&gt;"
  else if c = '"' then "&quot;"
  else if c = '\x27' then "&#39;"
  else String.singleton c

/-- escapeHtml (script.js lines 20-28): the five sequential global replaces are
equivalent to this single character-wise pass, since & is replaced first and no
replacement text re-introduces an escapable character other than the & it
itself inserts.  The null/undefined guard on line 21 is identity on strings. -/
def escapeHtml (s : String) : String :=
  String.join (s.toList.map escapeHtmlChar)

/-- buildPromptHTML (script.js lines 35-56).  The inter-tag whitespace of the
template literal is not reproduced; no claim inspects it. -/
def buildPromptHTML (promptText : String) (visible : Bool) : String :=
  if visible then
    "<div class=\"spoiler-container\"><button class=\"btn btn-reveal\" onclick=\"toggleReveal(this)\">Hide</button><div class=\"\">"
      ++ escapeHtml promptText ++ "</div></div>"
  else
    "<div class=\"spoiler-container\"><button class=\"btn btn-reveal\" onclick=\"toggleReveal(this)\">Reveal</button><div class=\"hidden\">"
      ++ escapeHtml promptText ++ "</div></div>"

/-- One rendered table row (.game-row) in display order, carrying the data the
persistence and timer code reads back out of the DOM:
data-row-id, the name/icon cells, the prompt and resource cell markup, the two
timer inputs and the done checkbox. -/
structure RowState where
  id : Int
  gameName : String
  gameIcon : String
  prompt : String
  resourceHTML : String
  timerMin : Int
  timerSec : Int
  completed : Bool
deriving DecidableEq, Repr

/-- Per-row timer state (script.js line 66): remainingSeconds and isRunning.
The intervalId field is represented by isRunning (see module comment). -/
structure Timer where
  remainingSeconds : Int
  isRunning : Bool
deriving DecidableEq, Repr

/-- The mutable page state the claims range over: the rows in display order,
the timers map in ascending-id iteration order, and the nextRowId counter
(script.js line 59). -/
structure AppState where
  rows : List RowState
  timers : List (Int × Timer)
  nextRowId : Int
deriving DecidableEq, Repr

/-- LocalStorage key for the snapshot (script.js line 71). -/
def STORAGE_KEY : String := "gameNightRounds"

/-- Schema version constant (script.js line 16). -/
def STORAGE_SCHEMA_VERSION : Int := 1

/-- One element of the array passed to JSON.stringify by saveRoundsToStorage
(script.js lines 97-106). -/
structure StoredRound where
  id : Int
  gameName : String
  gameIcon : String
  prompt : String
  resourceHTML : String
  timerMin : Int
  timerSec : Int
  isCompleted : Bool
deriving DecidableEq, Repr

/-- The record saveRoundsToStorage builds from one .game-row (script.js lines
87-107).  The DOM reads (parseInt of the timer inputs, the checkbox checked
property, stripping the icon from the name cell text) recover exactly the
values the row was rendered with, so they are modelled as field reads. -/
def storedOfRow (r : RowState) : StoredRound :=
  { id := r.id, gameName := r.gameName, gameIcon := r.gameIcon,
    prompt := r.prompt, resourceHTML := r.resourceHTML,
    timerMin := r.timerMin, timerSec := r.timerSec, isCompleted := r.completed }

/-- JSON object for one stored round, field order as pushed at lines 97-106. -/
def roundToJson (sr : StoredRound) : Json :=
  Json.obj
    [ ("id", Json.num sr.id),
      ("gameName", Json.str sr.gameName),
      ("gameIcon", Json.str sr.gameIcon),
      ("prompt", Json.str sr.prompt),
      ("resourceHTML", Json.str sr.resourceHTML),
      ("timerMin", Json.num sr.timerMin),
      ("timerSec", Json.num sr.timerSec),
      ("isCompleted", Json.bool sr.isCompleted) ]

/-- The JSON value saveRoundsToStorage serializes (script.js line 110). -/
def saveJson (rows : List RowState) : Json :=
  Json.arr (rows.map (fun r => roundToJson (storedOfRow r)))

/-- All localStorage writes performed by one call to saveRoundsToStorage:
exactly one, the rounds array under STORAGE_KEY (script.js line 110). -/
def saveWrites (rows : List RowState) : List (String × Json) :=
  [ (STORAGE_KEY, saveJson rows) ]

/-- The contents of the localStorage slot, abstracted by parse outcome:
no stored string, a stored string JSON.parse throws on, or the parsed value. -/
inductive StoredBlob where
  | absent : StoredBlob
  | malformed : StoredBlob
  | value (j : Json) : StoredBlob

/-- Field lookup in a JSON object field list. -/
def lookupField : List (String × Json) → String → Option Json
  | [], _ => none
  | (k, v) :: rest, key => if key = k then some v else lookupField rest key

/-- JS property read round.f: a present field, or none for undefined
(missing field, or any non-object non-null base value). -/
def Json.getField : Json → String → Option Json
  | Json.obj fields, key => lookupField fields key
  | _, _ => none

/-- JS truthiness of a property read (used for round.isCompleted in the
checked-attribute ternary at line 186). -/
def truthy : Option Json → Bool
  | none => false
  | some Json.null => false
  | some (Json.bool b) => b
  | some (Json.num n) => decide (n ≠ 0)
  | some (Json.str s) => decide (s ≠ "")
  | some (Json.arr _) => true
  | some (Json.obj _) => true

/-- Numeric value of a property read where the code compares or renders it as a
number (round.id, round.timerMin, round.timerSec).  Non-numeric stored values
(which the program would carry as NaN-producing strings) are outside every
claim and default to 0 here. -/
def asNum (v : Option Json) : Int :=
  match v with
  | some (Json.num n) => n
  | _ => 0

/-- String value of a property read rendered into a template literal.
A missing property renders as the text undefined; coercions of other
non-string values are outside every claim. -/
def asStr (v : Option Json) : String :=
  match v with
  | some (Json.str s) => s
  | none => "undefined"
  | _ => ""

/-- The body of the rounds.forEach callback in loadRoundsFromStorage (script.js
lines 143-198) applied to one stored entry: rebuilds the row that is inserted
into the table.  Property access on a null entry throws a TypeError (modelled
as the error case); the prompt is kept as-is when it already looks like HTML
and otherwise wrapped by buildPromptHTML (lines 147-154). -/
def decodeEntry (j : Json) : Except String RowState :=
  match j with
  | Json.null => Except.error "TypeError: cannot read properties of null"
  | _ =>
    let promptHTML :=
      match j.getField "prompt" with
      | some (Json.str p) => if looksLikeHtml p then p else buildPromptHTML p true
      | _ => buildPromptHTML "" true
    Except.ok
      { id := asNum (j.getField "id"),
        gameName := asStr (j.getField "gameName"),
        gameIcon := asStr (j.getField "gameIcon"),
        prompt := promptHTML,
        resourceHTML := asStr (j.getField "resourceHTML"),
        timerMin := asNum (j.getField "timerMin"),
        timerSec := asNum (j.getField "timerSec"),
        completed := truthy (j.getField "isCompleted") }

/-- The forEach loop over the parsed array: the first throwing entry aborts the
whole load (the exception propagates to the catch at line 204). -/
def decodeEntries : List Json → Except String (List RowState)
  | [] => Except.ok []
  | j :: rest =>
    match decodeEntry j with
    | Except.error e => Except.error e
    | Except.ok r =>
      match decodeEntries rest with
      | Except.error e => Except.error e
      | Except.ok rs => Except.ok (r :: rs)

/-- The running maximum-id fold of lines 142-144: maxId starts at 0 and takes
each id strictly greater than the current maximum. -/
def maxIdFold (ids : List Int) : Int :=
  ids.foldl (fun m i => if i > m then i else m) 0

/-- Outcome of loadRoundsFromStorage for its caller: false (use the default
HTML) or true together with the rebuilt rows and the restored nextRowId. -/
inductive LoadResult where
  | useDefaults : LoadResult
  | loaded (rows : List RowState) (nextRowId : Int) : LoadResult
deriving DecidableEq, Repr

/-- The parsed-array path of loadRoundsFromStorage (script.js lines 132-202):
an empty array returns false; otherwise the rows are rebuilt and nextRowId
becomes maxId + 1 (line 200). -/
def loadArr (entries : List Json) : Except String LoadResult :=
  if entries.isEmpty then Except.ok LoadResult.useDefaults
  else
    match decodeEntries entries with
    | Except.error e => Except.error e
    | Except.ok rows =>
      Except.ok (LoadResult.loaded rows (maxIdFold (rows.map RowState.id) + 1))

/-- The try-block of loadRoundsFromStorage (script.js lines 122-203) with
exceptions surfaced: absent slot returns false (line 124); JSON.parse throws on
a malformed string (line 129); a parsed value that is not an array returns
false (line 132); an array is handled by loadArr. -/
def loadBody : StoredBlob → Except String LoadResult
  | StoredBlob.absent => Except.ok LoadResult.useDefaults
  | StoredBlob.malformed => Except.error "SyntaxError: JSON.parse"
  | StoredBlob.value (Json.arr entries) => loadArr entries
  | StoredBlob.value _ => Except.ok LoadResult.useDefaults

/-- loadRoundsFromStorage (script.js lines 121-208): the catch at lines 204-207
maps every exception to the false / use-defaults outcome. -/
def loadRoundsFromStorage (b : StoredBlob) : LoadResult :=
  match loadBody b with
  | Except.ok r => r
  | Except.error _ => LoadResult.useDefaults

/-- timers[rowId] read: lookup in the ascending-key association list. -/
def tlookup : List (Int × Timer) → Int → Option Timer
  | [], _ => none
  | (k, t) :: rest, key => if key = k then some t else tlookup rest key

/-- timers[rowId] = t write: sorted insert-or-replace, preserving the
ascending numeric key order in which Object.entries enumerates the object. -/
def tinsert : List (Int × Timer) → Int → Timer → List (Int × Timer)
  | [], key, t => [(key, t)]
  | (k, t') :: rest, key, t =>
    if key < k then (key, t) :: (k, t') :: rest
    else if key = k then (key, t) :: rest
    else (k, t') :: tinsert rest key t

/-- delete timers[rowId] (script.js line 818). -/
def terase (l : List (Int × Timer)) (key : Int) : List (Int × Timer) :=
  l.filter (fun p => decide (p.1 ≠ key))

/-- document.querySelector for tr[data-row-id=rowId]: first row with that id. -/
def findRow (rows : List RowState) (rowId : Int) : Option RowState :=
  rows.find? (fun r => decide (r.id = rowId))

/-- getTimerSeconds (script.js lines 234-240). -/
def getTimerSeconds (row : RowState) : Int :=
  row.timerMin * 60 + row.timerSec

/-- startTimer (script.js lines 246-306).  Missing row: return (line 248);
already running: return (line 253); no timer object or remaining zero:
initialize from the inputs (lines 258-265); computed time not positive: the
freshly initialized timer object is kept but not started (lines 268-271);
otherwise isRunning becomes true and the tick interval is scheduled. -/
def startTimer (s : AppState) (rowId : Int) : AppState :=
  match findRow s.rows rowId with
  | none => s
  | some row =>
    let existing := tlookup s.timers rowId
    match existing with
    | some t =>
      if t.isRunning then s
      else
        let t1 := if t.remainingSeconds = 0 then
            { remainingSeconds := getTimerSeconds row, isRunning := false }
          else t
        if t1.remainingSeconds ≤ 0 then { s with timers := tinsert s.timers rowId t1 }
        else { s with timers := tinsert s.timers rowId { t1 with isRunning := true } }
    | none =>
      let t1 : Timer := { remainingSeconds := getTimerSeconds row, isRunning := false }
      if t1.remainingSeconds ≤ 0 then { s with timers := tinsert s.timers rowId t1 }
      else { s with timers := tinsert s.timers rowId { t1 with isRunning := true } }

/-- timerFinished (script.js lines 369-395): if the row is gone it returns
before touching the timer (line 371); otherwise the interval is cleared,
isRunning set to false and remainingSeconds forced to 0. -/
def timerFinished (s : AppState) (rowId : Int) : AppState :=
  match findRow s.rows rowId with
  | none => s
  | some _ =>
    match tlookup s.timers rowId with
    | none => s
    | some _ =>
      { s with timers := tinsert s.timers rowId { remainingSeconds := 0, isRunning := false } }

/-- One firing of the setInterval callback scheduled by startTimer (script.js
lines 284-305): decrement remainingSeconds, then call timerFinished when it has
reached 0.  The callback exists exactly while isRunning is true (see module
comment), so a tick on an absent or non-running timer is a no-op. -/
def timerTick (s : AppState) (rowId : Int) : AppState :=
  match tlookup s.timers rowId with
  | none => s
  | some t =>
    if t.isRunning then
      let r := t.remainingSeconds - 1
      let s1 := { s with timers := tinsert s.timers rowId { t with remainingSeconds := r } }
      if r ≤ 0 then timerFinished s1 rowId else s1
    else s

/-- pauseTimer (script.js lines 312-333): no timer object or missing row:
return; otherwise clear the interval and set isRunning false, preserving
remainingSeconds. -/
def pauseTimer (s : AppState) (rowId : Int) : AppState :=
  match tlookup s.timers rowId with
  | none => s
  | some t =>
    match findRow s.rows rowId with
    | none => s
    | some _ =>
      { s with timers := tinsert s.timers rowId { t with isRunning := false } }

/-- resetTimer (script.js lines 339-363): missing row: return; otherwise the
timer object is replaced by a zeroed, non-running one (created if absent). -/
def resetTimer (s : AppState) (rowId : Int) : AppState :=
  match findRow s.rows rowId with
  | none => s
  | some _ =>
    { s with timers := tinsert s.timers rowId { remainingSeconds := 0, isRunning := false } }

/-- deleteRow (script.js lines 808-833), after the user confirms: clear and
remove the timer, remove the row.  The subsequent updateProgress,
updateGlobalTimerDisplay and saveRoundsToStorage calls are derived views,
applied separately where a claim needs them. -/
def deleteRow (s : AppState) (rowId : Int) : AppState :=
  { s with timers := terase s.timers rowId,
           rows := s.rows.filter (fun r => decide (r.id ≠ rowId)) }

/-- Urgency tier of the per-row display. -/
inductive UrgencyTier where
  | normal : UrgencyTier
  | warning : UrgencyTier
  | danger : UrgencyTier
  | expired : UrgencyTier
deriving DecidableEq, Repr

/-- The classification applied by the tick callback to the remaining seconds
it just produced: danger when remainingSeconds <= 10 && > 0 (line 291),
warning when <= 30 && > 10 (line 294), expired when it reaches <= 0 and
timerFinished runs (line 300), otherwise the running display is left in its
normal state. -/
def tickUrgency (r : Int) : UrgencyTier :=
  if r ≤ 10 ∧ 0 < r then UrgencyTier.danger
  else if r ≤ 30 ∧ 10 < r then UrgencyTier.warning
  else if r ≤ 0 then UrgencyTier.expired
  else UrgencyTier.normal

/-- What updateGlobalTimerDisplay leaves in the header (script.js 418-460). -/
inductive GlobalDisplay where
  | noActive : GlobalDisplay
  | active (id : Int) (gameName : String) (seconds : Int) : GlobalDisplay
  | unchangedStaleRow : GlobalDisplay
deriving DecidableEq, Repr

/-- The filtered running-timer list of lines 422-427: Object.entries order
(ascending id), keeping isRunning && remainingSeconds > 0, mapped to
(id, seconds) pairs. -/
def runningTimersOf (s : AppState) : List (Int × Int) :=
  (s.timers.filter (fun p => p.2.isRunning && decide (p.2.remainingSeconds > 0))).map
    (fun p => (p.1, p.2.remainingSeconds))

/-- The reduce at lines 436-438: keep the entry with strictly less seconds,
so the first entry encountered wins ties. -/
def reduceUrgent (x : Int × Int) (xs : List (Int × Int)) : Int × Int :=
  xs.foldl (fun m t => if t.2 < m.2 then t else m) x

/-- updateGlobalTimerDisplay (script.js lines 418-460): empty filtered set
renders the fixed no-active-timer state (lines 429-433); otherwise the reduced
most-urgent entry is rendered with its row's game name; if that row is gone the
function returns leaving the display unchanged (line 446). -/
def updateGlobalTimerDisplay (s : AppState) : GlobalDisplay :=
  match runningTimersOf s with
  | [] => GlobalDisplay.noActive
  | x :: xs =>
    let urgent := reduceUrgent x xs
    match findRow s.rows urgent.1 with
    | none => GlobalDisplay.unchangedStaleRow
    | some row => GlobalDisplay.active urgent.1 row.gameName urgent.2

/-- The view updateProgress computes (script.js lines 583-601).  The celebrated
flag records whether celebrateCompletion was invoked by this recompute (line
597-600).  JS double rounding of the percentage is idealized by a rational. -/
structure ProgressView where
  checkedCount : Nat
  totalCount : Nat
  percentage : ℚ
  celebrated : Bool
deriving DecidableEq, Repr

/-- updateProgress (script.js lines 583-601): counts over the current
checkboxes only; celebrateCompletion fires whenever
checkedCount == totalCount && totalCount > 0 holds after this recompute,
with no memory of any previous state. -/
def updateProgress (rows : List RowState) : ProgressView :=
  let totalCount := rows.length
  let checkedCount := (rows.filter (fun r => r.completed)).length
  { checkedCount := checkedCount,
    totalCount := totalCount,
    percentage := if totalCount > 0 then (checkedCount : ℚ) / (totalCount : ℚ) * 100 else 0,
    celebrated := decide (checkedCount = totalCount) && decide (0 < totalCount) }

/-- Which collaborator calls one toggleDone invocation makes. -/
structure ToggleFx where
  pauseCalled : Bool
  scrollCalled : Bool
  progressCalled : Bool
  storageWriteCalled : Bool
deriving DecidableEq, Repr

/-- The checkbox state change the browser applies before the onchange handler
runs: the done-checkbox of the row(s) with this id now holds the new value. -/
def setCompleted (rows : List RowState) (rowId : Int) (c : Bool) : List RowState :=
  rows.map (fun r => if r.id = rowId then { r with completed := c } else r)

/-- toggleDone (script.js lines 518-541): stale id returns before any effect
(line 520); on checking, pauseTimer and scrollToNextUnchecked run (lines
522-530); on unchecking only the completed class is removed (line 533); both
branches then run updateProgress and saveRoundsToStorage (lines 537-540). -/
def toggleDone (s : AppState) (rowId : Int) (checked : Bool) : AppState × ToggleFx :=
  match findRow s.rows rowId with
  | none => (s, { pauseCalled := false, scrollCalled := false,
                  progressCalled := false, storageWriteCalled := false })
  | some _ =>
    let s0 := { s with rows := setCompleted s.rows rowId checked }
    if checked then
      (pauseTimer s0 rowId,
       { pauseCalled := true, scrollCalled := true,
         progressCalled := true, storageWriteCalled := true })
    else
      (s0, { pauseCalled := false, scrollCalled := false,
             progressCalled := true, storageWriteCalled := true })

/-- The add-round form fields read at script.js lines 658-665. -/
structure NewRoundFields where
  gameName : String
  gameIcon : String
  prompt : String
  resourceType : String
  resourcePath : String
  timerMin : Int
  timerSec : Int
deriving DecidableEq, Repr

/-- The resource cell markup built by the switch at lines 678-727.  Template
whitespace is not reproduced; the answer kind escapes its user text (line 717),
the media kinds embed the path literally. -/
def resourceHTMLFor (resourceType resourcePath : String) : String :=
  if resourceType = "audio" then
    "<div class=\"audio-container\"><audio controls class=\"audio-player\"><source src=\"" ++ resourcePath ++ "\" type=\"audio/mpeg\"></audio></div>"
  else if resourceType = "image" then
    "<div class=\"spoiler-container\"><button class=\"btn btn-reveal\" onclick=\"toggleReveal(this)\">Reveal Image</button><div class=\"image-container hidden\"><img src=\"" ++ resourcePath ++ "\" alt=\"Round image\" class=\"thumbnail\"></div></div>"
  else if resourceType = "video" then
    "<div class=\"video-container\"><video controls class=\"video-player\"><source src=\"" ++ resourcePath ++ "\" type=\"video/mp4\"></video></div>"
  else if resourceType = "answer" then
    "<div class=\"spoiler-answer\"><button class=\"btn btn-reveal\" onclick=\"toggleReveal(this)\">Reveal Answer</button><span class=\"answer hidden\">" ++ escapeHtml resourcePath ++ "</span></div>"
  else
    "<span class=\"text-only-badge\">📝 Text Only</span>"

/-- addNewRound (script.js lines 656-802): trim the inputs, default the icon
(line 659), reject an empty name or prompt with no mutation (lines 668-675),
otherwise assign id nextRowId, post-increment the counter (line 730) and append
the new uncompleted row.  The trailing updateProgress and saveRoundsToStorage
calls are derived views applied separately where a claim needs them. -/
def addNewRound (s : AppState) (f : NewRoundFields) : AppState :=
  let gameName := jsTrim f.gameName
  let gameIcon := if jsTrim f.gameIcon = "" then "🎮" else jsTrim f.gameIcon
  let prompt := jsTrim f.prompt
  if gameName = "" then s
  else if prompt = "" then s
  else
    { s with
      rows := s.rows ++
        [ { id := s.nextRowId, gameName := gameName, gameIcon := gameIcon,
            prompt := buildPromptHTML prompt true,
            resourceHTML := resourceHTMLFor f.resourceType (jsTrim f.resourcePath),
            timerMin := f.timerMin, timerSec := f.timerSec, completed := false } ],
      nextRowId := s.nextRowId + 1 }

/-- Helper for moveRowUp: swap the row with its previous sibling. -/
def moveUpList : List RowState → Int → List RowState
  | [], _ => []
  | [r], _ => [r]
  | r1 :: r2 :: rest, rowId =>
    if r2.id = rowId then r2 :: r1 :: rest
    else r1 :: moveUpList (r2 :: rest) rowId

/-- moveRowUp (script.js lines 845-868): insert the row before its previous
sibling; no-op at the top or for a missing row. -/
def moveRowUp (s : AppState) (rowId : Int) : AppState :=
  { s with rows := moveUpList s.rows rowId }

mutual

/-- All object field names occurring anywhere in a JSON value. -/
def Json.fieldNames : Json → List String
  | Json.obj fields => fieldNamesOfFields fields
  | Json.arr elems => fieldNamesOfList elems
  | _ => []

/-- Field names occurring in a list of JSON values. -/
def fieldNamesOfList : List Json → List String
  | [] => []
  | j :: js => j.fieldNames ++ fieldNamesOfList js

/-- Field names of an object field list, including nested ones. -/
def fieldNamesOfFields : List (String × Json) → List String
  | [] => []
  | (k, v) :: fs => k :: (v.fieldNames ++ fieldNamesOfFields fs)

end

/-- The timer-affecting operations named by the state-invariant claim. -/
inductive TimerOp where
  | start (rowId : Int) : TimerOp
  | tick (rowId : Int) : TimerOp
  | pause (rowId : Int) : TimerOp
  | reset (rowId : Int) : TimerOp
  | finish (rowId : Int) : TimerOp
  | del (rowId : Int) : TimerOp
deriving DecidableEq, Repr

/-- Apply one timer operation. -/
def applyTimerOp (s : AppState) : TimerOp → AppState
  | TimerOp.start rowId => startTimer s rowId
  | TimerOp.tick rowId => timerTick s rowId
  | TimerOp.pause rowId => pauseTimer s rowId
  | TimerOp.reset rowId => resetTimer s rowId
  | TimerOp.finish rowId => timerFinished s rowId
  | TimerOp.del rowId => deleteRow s rowId

/-- Apply a sequence of timer operations in order. -/
def applyTimerOps (s : AppState) (ops : List TimerOp) : AppState :=
  ops.foldl applyTimerOp s

/-- A session with ghost bookkeeping for the id-freshness claim: everLive
collects every id that was ever live, and collision records whether an add
ever assigned an id that was live before. -/
structure Session where
  app : AppState
  everLive : List Int
  collision : Bool
deriving DecidableEq, Repr

/-- Round-editor operations of the id claim: add and delete. -/
inductive EditOp where
  | add (f : NewRoundFields) : EditOp
  | del (rowId : Int) : EditOp
deriving DecidableEq, Repr

/-- Apply one editor operation, maintaining the ghost fields.  An add assigned
an id exactly when the counter moved (validation failures leave the state,
hence the counter, unchanged). -/
def applyEdit (s : Session) : EditOp → Session
  | EditOp.add f =>
    let app' := addNewRound s.app f
    if app'.nextRowId = s.app.nextRowId then
      { s with app := app' }
    else
      { app := app',
        everLive := s.everLive ++ [s.app.nextRowId],
        collision := s.collision || decide (s.app.nextRowId ∈ s.everLive) }
  | EditOp.del rowId => { s with app := deleteRow s.app rowId }

/-- Apply a sequence of editor operations in order. -/
def applyEdits (s : Session) (ops : List EditOp) : Session :=
  ops.foldl applyEdit s

/-- Ascending-key ordering of the timers association list. -/
def sortedKeys (l : List (Int × Timer)) : Prop :=
  l.Pairwise (fun a b => a.1 < b.1)

theorem tlookup_mem : ∀ (l : List (Int × Timer)) (k : Int) (t : Timer),
    tlookup l k = some t → (k, t) ∈ l := by
  intro l
  induction l with
  | nil => intro k t h; simp [tlookup] at h
  | cons p rest ih =>
    intro k t h
    obtain ⟨k', t'⟩ := p
    by_cases hk : k = k'
    · subst hk
      simp [tlookup] at h
      simp [h]
    · simp [tlookup, hk] at h
      exact List.mem_cons_of_mem _ (ih k t h)

theorem tlookup_tinsert_self : ∀ (l : List (Int × Timer)) (k : Int) (t : Timer),
    tlookup (tinsert l k t) k = some t := by
  intro l
  induction l with
  | nil => intro k t; simp [tinsert, tlookup]
  | cons p rest ih =>
    intro k t
    obtain ⟨k', t'⟩ := p
    by_cases h1 : k < k'
    · simp [tinsert, h1, tlookup]
    · by_cases h2 : k = k'
      · simp [tinsert, h1, h2, tlookup]
      · simp [tinsert, h1, h2, tlookup, ih]

theorem mem_tinsert_weak : ∀ (l : List (Int × Timer)) (k : Int) (t : Timer)
    (p : Int × Timer), p ∈ tinsert l k t → p = (k, t) ∨ p ∈ l := by
  intro l
  induction l with
  | nil => intro k t p hp; simp [tinsert] at hp; simp [hp]
  | cons q rest ih =>
    intro k t p hp
    obtain ⟨k', t'⟩ := q
    by_cases h1 : k < k'
    · simp only [tinsert, if_pos h1, List.mem_cons] at hp
      rcases hp with hp | hp | hp
      · exact Or.inl hp
      · exact Or.inr (by simp [hp])
      · exact Or.inr (List.mem_cons_of_mem _ hp)
    · by_cases h2 : k = k'
      · simp only [tinsert, if_neg h1, if_pos h2, List.mem_cons] at hp
        rcases hp with hp | hp
        · exact Or.inl hp
        · exact Or.inr (List.mem_cons_of_mem _ hp)
      · simp only [tinsert, if_neg h1, if_neg h2, List.mem_cons] at hp
        rcases hp with hp | hp
        · exact Or.inr (by simp [hp])
        · rcases ih k t p hp with h | h
          · exact Or.inl h
          · exact Or.inr (List.mem_cons_of_mem _ h)

theorem tinsert_sorted : ∀ (l : List (Int × Timer)) (k : Int) (t : Timer),
    sortedKeys l → sortedKeys (tinsert l k t) := by
  intro l
  induction l with
  | nil => intro k t _; simp [tinsert, sortedKeys]
  | cons q rest ih =>
    intro k t hs
    obtain ⟨k', t'⟩ := q
    rw [sortedKeys, List.pairwise_cons] at hs
    obtain ⟨hhead, htail⟩ := hs
    by_cases h1 : k < k'
    · rw [sortedKeys]
      simp only [tinsert, if_pos h1]
      rw [List.pairwise_cons]
      constructor
      · intro b hb
        rcases List.mem_cons.mp hb with hb | hb
        · simpa [hb] using h1
        · have := hhead b hb
          simp only at this ⊢
          omega
      · rw [List.pairwise_cons]
        exact ⟨hhead, htail⟩
    · by_cases h2 : k = k'
      · rw [sortedKeys]
        simp only [tinsert, if_neg h1, if_pos h2]
        rw [List.pairwise_cons]
        refine ⟨?_, htail⟩
        intro b hb
        have := hhead b hb
        simp only at this ⊢
        omega
      · rw [sortedKeys]
        simp only [tinsert, if_neg h1, if_neg h2]
        rw [List.pairwise_cons]
        constructor
        · intro b hb
          rcases mem_tinsert_weak rest k t b hb with h | h
          · subst h; simp only; omega
          · exact hhead b h
        · exact ih k t htail

theorem mem_tinsert : ∀ (l : List (Int × Timer)) (k : Int) (t : Timer)
    (p : Int × Timer), sortedKeys l → p ∈ tinsert l k t →
    p = (k, t) ∨ (p ∈ l ∧ p.1 ≠ k) := by
  intro l
  induction l with
  | nil => intro k t p _ hp; simp [tinsert] at hp; simp [hp]
  | cons q rest ih =>
    intro k t p hs hp
    obtain ⟨k', t'⟩ := q
    rw [sortedKeys, List.pairwise_cons] at hs
    obtain ⟨hhead, htail⟩ := hs
    by_cases h1 : k < k'
    · simp only [tinsert, if_pos h1, List.mem_cons] at hp
      rcases hp with hp | hp | hp
      · exact Or.inl hp
      · refine Or.inr ⟨by simp [hp], ?_⟩
        subst hp; simp only; omega
      · refine Or.inr ⟨List.mem_cons_of_mem _ hp, ?_⟩
        have := hhead p hp
        omega
    · by_cases h2 : k = k'
      · simp only [tinsert, if_neg h1, if_pos h2, List.mem_cons] at hp
        rcases hp with hp | hp
        · exact Or.inl hp
        · refine Or.inr ⟨List.mem_cons_of_mem _ hp, ?_⟩
          have := hhead p hp
          omega
      · simp only [tinsert, if_neg h1, if_neg h2, List.mem_cons] at hp
        rcases hp with hp | hp
        · refine Or.inr ⟨by simp [hp], ?_⟩
          subst hp; simp only; omega
        · rcases ih k t p htail hp with h | ⟨hmem, hne⟩
          · exact Or.inl h
          · exact Or.inr ⟨List.mem_cons_of_mem _ hmem, hne⟩

theorem findRow_spec {rows : List RowState} {rowId : Int} {row : RowState}
    (h : findRow rows rowId = some row) : row ∈ rows ∧ row.id = rowId := by
  refine ⟨List.mem_of_find?_eq_some h, ?_⟩
  have := List.find?_some h
  simpa using this

theorem findRow_isSome {rows : List RowState} {rowId : Int}
    (h : ∃ r ∈ rows, r.id = rowId) : ∃ row, findRow rows rowId = some row := by
  obtain ⟨r, hr, hid⟩ := h
  cases hfind : findRow rows rowId with
  | some row => exact ⟨row, rfl⟩
  | none =>
    exfalso
    have := List.find?_eq_none.mp hfind r hr
    simp [hid] at this

/-- The per-timer part of the state invariant: remaining time is never
negative, an expired timer is not running, and a running timer belongs to a
row that is still in the table. -/
def TimerInvPair (rows : List RowState) (p : Int × Timer) : Prop :=
  0 ≤ p.2.remainingSeconds ∧
  (p.2.remainingSeconds = 0 → p.2.isRunning = false) ∧
  (p.2.isRunning = true → ∃ r ∈ rows, r.id = p.1)

/-- The inductive state invariant: configured inputs are non-negative (the
timer inputs carry min=0 bounds), the timers map is in ascending key order,
and every timer satisfies TimerInvPair. -/
def Inv (s : AppState) : Prop :=
  (∀ r ∈ s.rows, 0 ≤ r.timerMin ∧ 0 ≤ r.timerSec) ∧
  sortedKeys s.timers ∧
  ∀ p ∈ s.timers, TimerInvPair s.rows p

theorem inv_startTimer {s : AppState} (h : Inv s) (rowId : Int) :
    Inv (startTimer s rowId) := by
  obtain ⟨hrows, hsort, htimers⟩ := h
  unfold startTimer
  cases hfind : findRow s.rows rowId with
  | none => exact ⟨hrows, hsort, htimers⟩
  | some row =>
    obtain ⟨hrowmem, hrowid⟩ := findRow_spec hfind
    have hconf := hrows row hrowmem
    have hgts : 0 ≤ getTimerSeconds row := by
      unfold getTimerSeconds; omega
    cases hlook : tlookup s.timers rowId with
    | some t =>
      have htmem := tlookup_mem _ _ _ hlook
      have h1 : 0 ≤ t.remainingSeconds := (htimers _ htmem).1
      dsimp only
      by_cases hrun : t.isRunning = true
      · rw [if_pos hrun]
        exact ⟨hrows, hsort, htimers⟩
      · rw [if_neg hrun]
        by_cases hz0 : t.remainingSeconds = 0
        · rw [if_pos hz0]
          by_cases hz : getTimerSeconds row ≤ 0
          · rw [if_pos hz]
            refine ⟨hrows, tinsert_sorted _ _ _ hsort, ?_⟩
            intro p hp
            rcases mem_tinsert _ _ _ _ hsort hp with hpe | ⟨hpm, _⟩
            · subst hpe
              exact ⟨by simpa using hgts, fun _ => rfl, by simp⟩
            · exact htimers _ hpm
          · rw [if_neg hz]
            refine ⟨hrows, tinsert_sorted _ _ _ hsort, ?_⟩
            intro p hp
            rcases mem_tinsert _ _ _ _ hsort hp with hpe | ⟨hpm, _⟩
            · subst hpe
              refine ⟨by simpa using hgts, ?_, fun _ => ⟨row, hrowmem, hrowid⟩⟩
              intro h0
              simp only at h0
              omega
            · exact htimers _ hpm
        · rw [if_neg hz0]
          have hz : ¬ (t.remainingSeconds ≤ 0) := by omega
          rw [if_neg hz]
          refine ⟨hrows, tinsert_sorted _ _ _ hsort, ?_⟩
          intro p hp
          rcases mem_tinsert _ _ _ _ hsort hp with hpe | ⟨hpm, _⟩
          · subst hpe
            refine ⟨by simpa using h1, ?_, fun _ => ⟨row, hrowmem, hrowid⟩⟩
            intro h0
            simp only at h0
            omega
          · exact htimers _ hpm
    | none =>
      dsimp only
      by_cases hz : getTimerSeconds row ≤ 0
      · rw [if_pos hz]
        refine ⟨hrows, tinsert_sorted _ _ _ hsort, ?_⟩
        intro p hp
        rcases mem_tinsert _ _ _ _ hsort hp with hpe | ⟨hpm, _⟩
        · subst hpe
          exact ⟨by simpa using hgts, fun _ => rfl, by simp⟩
        · exact htimers _ hpm
      · rw [if_neg hz]
        refine ⟨hrows, tinsert_sorted _ _ _ hsort, ?_⟩
        intro p hp
        rcases mem_tinsert _ _ _ _ hsort hp with hpe | ⟨hpm, _⟩
        · subst hpe
          refine ⟨by simpa using hgts, ?_, fun _ => ⟨row, hrowmem, hrowid⟩⟩
          intro h0
          simp only at h0
          omega
        · exact htimers _ hpm

theorem inv_timerFinished {s : AppState} (h : Inv s) (rowId : Int) :
    Inv (timerFinished s rowId) := by
  obtain ⟨hrows, hsort, htimers⟩ := h
  unfold timerFinished
  cases hfind : findRow s.rows rowId with
  | none => exact ⟨hrows, hsort, htimers⟩
  | some row =>
    cases hlook : tlookup s.timers rowId with
    | none => exact ⟨hrows, hsort, htimers⟩
    | some t =>
      refine ⟨hrows, tinsert_sorted _ _ _ hsort, ?_⟩
      intro p hp
      rcases mem_tinsert _ _ _ _ hsort hp with hpe | ⟨hpm, _⟩
      · subst hpe
        exact ⟨by simp, fun _ => rfl, by simp⟩
      · exact htimers _ hpm

theorem inv_timerTick {s : AppState} (h : Inv s) (rowId : Int) :
    Inv (timerTick s rowId) := by
  obtain ⟨hrows, hsort, htimers⟩ := h
  unfold timerTick
  cases hlook : tlookup s.timers rowId with
  | none => exact ⟨hrows, hsort, htimers⟩
  | some t =>
    have htmem := tlookup_mem _ _ _ hlook
    have h1 : 0 ≤ t.remainingSeconds := (htimers _ htmem).1
    have h2 : t.remainingSeconds = 0 → t.isRunning = false := (htimers _ htmem).2.1
    have h3 : t.isRunning = true → ∃ r ∈ s.rows, r.id = rowId := (htimers _ htmem).2.2
    dsimp only
    by_cases hrun : t.isRunning = true
    · rw [if_pos hrun]
      have hpos : 0 < t.remainingSeconds := by
        rcases Int.lt_or_le 0 t.remainingSeconds with hlt | hle
        · exact hlt
        · exfalso
          have h0 : t.remainingSeconds = 0 := by omega
          rw [h2 h0] at hrun
          exact Bool.false_ne_true hrun
      by_cases hz : t.remainingSeconds - 1 ≤ 0
      · rw [if_pos hz]
        obtain ⟨row, hfr⟩ := findRow_isSome (h3 hrun)
        unfold timerFinished
        simp only [hfr, tlookup_tinsert_self]
        refine ⟨hrows, tinsert_sorted _ _ _ (tinsert_sorted _ _ _ hsort), ?_⟩
        intro p hp
        rcases mem_tinsert _ _ _ _ (tinsert_sorted _ _ _ hsort) hp with hpe | ⟨hpm, hpne⟩
        · subst hpe
          exact ⟨by simp, fun _ => rfl, by simp⟩
        · rcases mem_tinsert _ _ _ _ hsort hpm with hpe2 | ⟨hpm2, _⟩
          · exfalso
            rw [hpe2] at hpne
            exact hpne rfl
          · exact htimers _ hpm2
      · rw [if_neg hz]
        refine ⟨hrows, tinsert_sorted _ _ _ hsort, ?_⟩
        intro p hp
        rcases mem_tinsert _ _ _ _ hsort hp with hpe | ⟨hpm, _⟩
        · subst hpe
          refine ⟨?_, ?_, ?_⟩
          · simp only
            omega
          · intro h0
            simp only at h0
            omega
          · intro hr
            simp only at hr
            exact h3 hr
        · exact htimers _ hpm
    · rw [if_neg hrun]
      exact ⟨hrows, hsort, htimers⟩

theorem inv_pauseTimer {s : AppState} (h : Inv s) (rowId : Int) :
    Inv (pauseTimer s rowId) := by
  obtain ⟨hrows, hsort, htimers⟩ := h
  unfold pauseTimer
  cases hlook : tlookup s.timers rowId with
  | none => exact ⟨hrows, hsort, htimers⟩
  | some t =>
    have htinv := htimers _ (tlookup_mem _ _ _ hlook)
    cases hfind : findRow s.rows rowId with
    | none => exact ⟨hrows, hsort, htimers⟩
    | some row =>
      refine ⟨hrows, tinsert_sorted _ _ _ hsort, ?_⟩
      intro p hp
      rcases mem_tinsert _ _ _ _ hsort hp with hpe | ⟨hpm, _⟩
      · subst hpe
        exact ⟨htinv.1, fun _ => rfl, by simp⟩
      · exact htimers _ hpm

theorem inv_resetTimer {s : AppState} (h : Inv s) (rowId : Int) :
    Inv (resetTimer s rowId) := by
  obtain ⟨hrows, hsort, htimers⟩ := h
  unfold resetTimer
  cases hfind : findRow s.rows rowId with
  | none => exact ⟨hrows, hsort, htimers⟩
  | some row =>
    refine ⟨hrows, tinsert_sorted _ _ _ hsort, ?_⟩
    intro p hp
    rcases mem_tinsert _ _ _ _ hsort hp with hpe | ⟨hpm, _⟩
    · subst hpe
      exact ⟨by simp, fun _ => rfl, by simp⟩
    · exact htimers _ hpm

theorem inv_deleteRow {s : AppState} (h : Inv s) (rowId : Int) :
    Inv (deleteRow s rowId) := by
  obtain ⟨hrows, hsort, htimers⟩ := h
  unfold deleteRow
  refine ⟨?_, ?_, ?_⟩
  · intro r hr
    exact hrows r (List.mem_of_mem_filter hr)
  · exact List.Pairwise.filter _ hsort
  · intro p hp
    have hpm : p ∈ s.timers := List.mem_of_mem_filter hp
    have hpne : p.1 ≠ rowId := by
      have := List.of_mem_filter hp
      simpa using this
    have hpold := htimers _ hpm
    refine ⟨hpold.1, hpold.2.1, ?_⟩
    intro hr
    obtain ⟨r, hrm, hrid⟩ := hpold.2.2 hr
    refine ⟨r, ?_, hrid⟩
    apply List.mem_filter_of_mem hrm
    simp [hrid, hpne]

theorem inv_applyTimerOp {s : AppState} (h : Inv s) (op : TimerOp) :
    Inv (applyTimerOp s op) := by
  cases op with
  | start rowId => exact inv_startTimer h rowId
  | tick rowId => exact inv_timerTick h rowId
  | pause rowId => exact inv_pauseTimer h rowId
  | reset rowId => exact inv_resetTimer h rowId
  | finish rowId => exact inv_timerFinished h rowId
  | del rowId => exact inv_deleteRow h rowId

theorem inv_applyTimerOps {s : AppState} (h : Inv s) (ops : List TimerOp) :
    Inv (applyTimerOps s ops) := by
  induction ops generalizing s with
  | nil => exact h
  | cons op rest ih => exact ih (inv_applyTimerOp h op)

theorem reduceUrgent_nil (x : Int × Int) : reduceUrgent x [] = x := rfl

theorem reduceUrgent_cons (x t : Int × Int) (ts : List (Int × Int)) :
    reduceUrgent x (t :: ts) = reduceUrgent (if t.2 < x.2 then t else x) ts := rfl

/-- The reduce keeps its seed or moves to a strictly smaller list element. -/
theorem reduceUrgent_eq_or (xs : List (Int × Int)) : ∀ (x : Int × Int),
    reduceUrgent x xs = x ∨ (reduceUrgent x xs ∈ xs ∧ (reduceUrgent x xs).2 < x.2) := by
  induction xs with
  | nil => intro x; left; rfl
  | cons t ts ih =>
    intro x
    rw [reduceUrgent_cons]
    by_cases h : t.2 < x.2
    · rw [if_pos h]
      rcases ih t with h2 | ⟨h2, h3⟩
      · right
        rw [h2]
        exact ⟨List.mem_cons_self _ _, h⟩
      · right
        exact ⟨List.mem_cons_of_mem _ h2, lt_trans h3 h⟩
    · rw [if_neg h]
      rcases ih x with h2 | ⟨h2, h3⟩
      · left; exact h2
      · right
        exact ⟨List.mem_cons_of_mem _ h2, h3⟩

/-- The reduce result has minimal seconds over seed and list. -/
theorem reduceUrgent_min (xs : List (Int × Int)) : ∀ (x : Int × Int),
    ∀ p ∈ x :: xs, (reduceUrgent x xs).2 ≤ p.2 := by
  induction xs with
  | nil =>
    intro x p hp
    rcases List.mem_cons.mp hp with h | h
    · subst h; exact le_refl _
    · simp at h
  | cons t ts ih =>
    intro x p hp
    rw [reduceUrgent_cons]
    have hseed : ∀ q : Int × Int, (reduceUrgent q ts).2 ≤ q.2 :=
      fun q => ih q q (List.mem_cons_self _ _)
    have hm_x : (if t.2 < x.2 then t else x).2 ≤ x.2 := by split <;> omega
    have hm_t : (if t.2 < x.2 then t else x).2 ≤ t.2 := by split <;> omega
    rcases List.mem_cons.mp hp with h | h
    · subst h
      exact le_trans (hseed _) hm_x
    · rcases List.mem_cons.mp h with h | h
      · subst h
        exact le_trans (hseed _) hm_t
      · exact ih _ p (List.mem_cons_of_mem _ h)

/-- With keys in ascending order, the reduce breaks ties in favour of the
smallest key: any entry sharing the minimal seconds has a key at least as
large as the selected one. -/
theorem reduceUrgent_tie (xs : List (Int × Int)) : ∀ (x : Int × Int),
    (x :: xs).Pairwise (fun a b => a.1 < b.1) →
    ∀ p ∈ x :: xs, p.2 = (reduceUrgent x xs).2 → (reduceUrgent x xs).1 ≤ p.1 := by
  induction xs with
  | nil =>
    intro x _ p hp he
    rcases List.mem_cons.mp hp with h | h
    · subst h; exact le_refl _
    · simp at h
  | cons t ts ih =>
    intro x hsorted p hp he
    rw [List.pairwise_cons] at hsorted
    obtain ⟨h1, h2⟩ := hsorted
    rw [List.pairwise_cons] at h2
    obtain ⟨h2a, h2b⟩ := h2
    rw [reduceUrgent_cons] at he ⊢
    have hmsorted : ((if t.2 < x.2 then t else x) :: ts).Pairwise (fun a b => a.1 < b.1) := by
      rw [List.pairwise_cons]
      refine ⟨?_, h2b⟩
      intro b hb
      split
      · exact h2a b hb
      · exact h1 b (List.mem_cons_of_mem _ hb)
    have hseed_le : ∀ q : Int × Int, (reduceUrgent q ts).2 ≤ q.2 :=
      fun q => reduceUrgent_min ts q q (List.mem_cons_self _ _)
    rcases List.mem_cons.mp hp with hx | hrest
    · -- p is the seed x
      rw [hx] at he ⊢
      by_cases hlt : t.2 < x.2
      · exfalso
        rw [if_pos hlt] at he
        have := hseed_le t
        omega
      · rw [if_neg hlt] at he ⊢
        rcases reduceUrgent_eq_or ts x with hr | ⟨_, hr2⟩
        · rw [hr]
        · omega
    · rcases List.mem_cons.mp hrest with ht | hts
      · -- p is the first list element t
        rw [ht] at he ⊢
        by_cases hlt : t.2 < x.2
        · rw [if_pos hlt] at he ⊢
          rcases reduceUrgent_eq_or ts t with hr | ⟨_, hr2⟩
          · rw [hr]
          · omega
        · rw [if_neg hlt] at he ⊢
          rcases reduceUrgent_eq_or ts x with hr | ⟨_, hr2⟩
          · rw [hr]
            exact le_of_lt (h1 t (List.mem_cons_self _ _))
          · omega
      · -- p is deeper in the list
        exact ih _ hmsorted p (List.mem_cons_of_mem _ hts) he

/-- Filtering and projecting the sorted timers map keeps keys ascending. -/
theorem runningTimersOf_sorted {s : AppState} (h : sortedKeys s.timers) :
    (runningTimersOf s).Pairwise (fun a b => a.1 < b.1) := by
  unfold runningTimersOf
  apply List.Pairwise.map
  · intro a b hab
    exact hab
  · exact List.Pairwise.filter _ h

/-- The row rebuilt by load from a saved row: identical except that a prompt
that does not look like HTML gets wrapped into the reveal presentation. -/
def reloadedRow (r : RowState) : RowState :=
  { r with prompt := if looksLikeHtml r.prompt then r.prompt else buildPromptHTML r.prompt true }

theorem decodeEntry_roundToJson (r : RowState) :
    decodeEntry (roundToJson (storedOfRow r)) = Except.ok (reloadedRow r) := rfl

theorem decodeEntries_saved (rows : List RowState) :
    decodeEntries (rows.map (fun r => roundToJson (storedOfRow r))) =
      Except.ok (rows.map reloadedRow) := by
  induction rows with
  | nil => rfl
  | cons r rest ih =>
    simp only [List.map_cons, decodeEntries, decodeEntry_roundToJson, ih]

theorem reloadedRow_id (r : RowState) : (reloadedRow r).id = r.id := rfl

theorem reloadedRow_completed (r : RowState) : (reloadedRow r).completed = r.completed := rfl

theorem reloadedRow_timerMin (r : RowState) : (reloadedRow r).timerMin = r.timerMin := rfl

theorem reloadedRow_timerSec (r : RowState) : (reloadedRow r).timerSec = r.timerSec := rfl

theorem maxIdFold_le_fold : ∀ (ids : List Int) (m : Int),
    m ≤ ids.foldl (fun m i => if i > m then i else m) m := by
  intro ids
  induction ids with
  | nil => intro m; exact le_refl m
  | cons i rest ih =>
    intro m
    simp only [List.foldl_cons]
    by_cases h : i > m
    · rw [if_pos h]
      exact le_trans (le_of_lt h) (ih i)
    · rw [if_neg h]
      exact ih m

theorem mem_le_fold : ∀ (ids : List Int) (m : Int) (i : Int),
    i ∈ ids → i ≤ ids.foldl (fun m i => if i > m then i else m) m := by
  intro ids
  induction ids with
  | nil => intro m i h; simp at h
  | cons j rest ih =>
    intro m i h
    simp only [List.foldl_cons]
    rcases List.mem_cons.mp h with h | h
    · subst h
      refine le_trans ?_ (maxIdFold_le_fold rest _)
      split <;> omega
    · exact ih _ i h

theorem fold_eq_init_or_mem : ∀ (ids : List Int) (m : Int),
    ids.foldl (fun m i => if i > m then i else m) m = m ∨
    ids.foldl (fun m i => if i > m then i else m) m ∈ ids := by
  intro ids
  induction ids with
  | nil => intro m; left; rfl
  | cons j rest ih =>
    intro m
    simp only [List.foldl_cons]
    by_cases h : j > m
    · rw [if_pos h]
      rcases ih j with h2 | h2
      · right; rw [h2]; exact List.mem_cons_self _ _
      · right; exact List.mem_cons_of_mem _ h2
    · rw [if_neg h]
      rcases ih m with h2 | h2
      · left; exact h2
      · right; exact List.mem_cons_of_mem _ h2

theorem maxIdFold_ge {ids : List Int} {i : Int} (h : i ∈ ids) : i ≤ maxIdFold ids :=
  mem_le_fold ids 0 i h

/-- On a non-empty list of positive ids, the fold computes the maximum
(and that maximum is one of the ids). -/
theorem maxIdFold_mem {ids : List Int} (hne : ids ≠ [])
    (hpos : ∀ i ∈ ids, 0 < i) : maxIdFold ids ∈ ids := by
  rcases fold_eq_init_or_mem ids 0 with h | h
  · exfalso
    obtain ⟨i, hi⟩ : ∃ i, i ∈ ids := by
      cases ids with
      | nil => exact absurd rfl hne
      | cons a l => exact ⟨a, List.mem_cons_self _ _⟩
    have := maxIdFold_ge hi
    have := hpos i hi
    unfold maxIdFold at *
    omega
  · exact h

/-- A recompute in a state where every round is completed and at least one
round exists triggers the celebration. -/
theorem celebrates_of_all_completed {rows : List RowState}
    (h : ∀ r ∈ rows, r.completed = true) (hne : rows ≠ []) :
    (updateProgress rows).celebrated = true := by
  unfold updateProgress
  have hfilter : rows.filter (fun r => r.completed) = rows :=
    List.filter_eq_self.mpr h
  have hlen : 0 < rows.length := List.length_pos.mpr hne
  simp [hfilter, hlen]

/-- deleteRow keeps the nextRowId counter unchanged. -/
theorem deleteRow_nextRowId (s : AppState) (rowId : Int) :
    (deleteRow s rowId).nextRowId = s.nextRowId := rfl

/-- addNewRound either rejects (leaving the state unchanged) or appends one
row carrying id nextRowId and increments the counter. -/
theorem addNewRound_cases (s : AppState) (f : NewRoundFields) :
    addNewRound s f = s ∨
    ((addNewRound s f).nextRowId = s.nextRowId + 1 ∧
      ∃ nr : RowState, nr.id = s.nextRowId ∧ (addNewRound s f).rows = s.rows ++ [nr]) := by
  unfold addNewRound
  by_cases h1 : jsTrim f.gameName = ""
  · left; rw [if_pos h1]
  · rw [if_neg h1]
    by_cases h2 : jsTrim f.prompt = ""
    · left; rw [if_pos h2]
    · rw [if_neg h2]
      right
      exact ⟨rfl, _, rfl, rfl⟩

/-- The ghost invariant of a session: every id that was ever live is below
the counter, and no collision has been recorded. -/
def SGood (s : Session) : Prop :=
  (∀ i ∈ s.everLive, i < s.app.nextRowId) ∧ s.collision = false

theorem sgood_applyEdit {s : Session} (h : SGood s) (op : EditOp) :
    SGood (applyEdit s op) := by
  obtain ⟨hbound, hcol⟩ := h
  cases op with
  | add f =>
    unfold applyEdit
    dsimp only
    by_cases hc : (addNewRound s.app f).nextRowId = s.app.nextRowId
    · rw [if_pos hc]
      exact ⟨fun i hi => by rw [hc]; exact hbound i hi, hcol⟩
    · rw [if_neg hc]
      have hnext : (addNewRound s.app f).nextRowId = s.app.nextRowId + 1 := by
        rcases addNewRound_cases s.app f with h | ⟨h, _⟩
        · exfalso; apply hc; rw [h]
        · exact h
      constructor
      · intro i hi
        dsimp only
        rw [hnext]
        rcases List.mem_append.mp hi with hi | hi
        · have := hbound i hi
          omega
        · simp only [List.mem_singleton] at hi
          omega
      · have hnotmem : s.app.nextRowId ∉ s.everLive := by
          intro hmem
          have := hbound _ hmem
          omega
        simp [hcol, hnotmem]
  | del rowId =>
    unfold applyEdit
    dsimp only
    exact ⟨fun i hi => by rw [deleteRow_nextRowId]; exact hbound i hi, hcol⟩

theorem sgood_applyEdits {s : Session} (h : SGood s) (ops : List EditOp) :
    SGood (applyEdits s ops) := by
  induction ops generalizing s with
  | nil => exact h
  | cons op rest ih => exact ih (sgood_applyEdit h op)

/-- The eight field names of one serialized round (script.js lines 97-106). -/
def roundFieldNames : List String :=
  ["id", "gameName", "gameIcon", "prompt", "resourceHTML", "timerMin", "timerSec", "isCompleted"]

theorem roundToJson_fieldNames (sr : StoredRound) :
    (roundToJson sr).fieldNames = roundFieldNames := rfl

theorem fieldNamesOfList_saved : ∀ (rows : List RowState) (name : String),
    name ∈ fieldNamesOfList (rows.map (fun r => roundToJson (storedOfRow r))) →
    name ∈ roundFieldNames := by
  intro rows
  induction rows with
  | nil => intro name h; simp [fieldNamesOfList] at h
  | cons r rest ih =>
    intro name h
    rw [List.map_cons] at h
    have hstep : fieldNamesOfList (roundToJson (storedOfRow r) ::
        rest.map (fun r => roundToJson (storedOfRow r))) =
        (roundToJson (storedOfRow r)).fieldNames ++
        fieldNamesOfList (rest.map (fun r => roundToJson (storedOfRow r))) := rfl
    rw [hstep, roundToJson_fieldNames] at h
    rcases List.mem_append.mp h with h | h
    · exact h
    · exact ih name h

theorem saveJson_fieldNames (rows : List RowState) :
    ∀ name ∈ (saveJson rows).fieldNames, name ∈ roundFieldNames :=
  fun name h => fieldNamesOfList_saved rows name h

/-- The nextRowId a successful load restores is the id-fold maximum plus 1. -/
theorem loaded_nextRowId {b : StoredBlob} {rows' : List RowState} {nid : Int}
    (h : loadRoundsFromStorage b = LoadResult.loaded rows' nid) :
    nid = maxIdFold (rows'.map RowState.id) + 1 := by
  cases b with
  | absent => simp [loadRoundsFromStorage, loadBody] at h
  | malformed => simp [loadRoundsFromStorage, loadBody] at h
  | value j =>
    cases j with
    | arr entries =>
      unfold loadRoundsFromStorage loadBody loadArr at h
      dsimp only at h
      by_cases hemp : entries.isEmpty
      · rw [if_pos hemp] at h
        simp at h
      · rw [if_neg hemp] at h
        cases hdec : decodeEntries entries with
        | error e => rw [hdec] at h; simp at h
        | ok rows =>
          rw [hdec] at h
          dsimp only at h
          simp only [LoadResult.loaded.injEq] at h
          obtain ⟨hrows, hnid⟩ := h
          rw [← hrows, ← hnid]
    | null => simp [loadRoundsFromStorage, loadBody] at h
    | bool b => simp [loadRoundsFromStorage, loadBody] at h
    | num n => simp [loadRoundsFromStorage, loadBody] at h
    | str s => simp [loadRoundsFromStorage, loadBody] at h
    | obj fields => simp [loadRoundsFromStorage, loadBody] at h

/-- Iterated tick firings of one row's interval callback. -/
def ticksN (s : AppState) (rowId : Int) : Nat → AppState
  | 0 => s
  | n + 1 => ticksN (timerTick s rowId) rowId n

/-- C1: persistence round-trip.  For every non-empty ordered sequence of rounds
in the store (positive ids per the data model), saving and then loading yields
a sequence of the same length, in the same order, with the same ids, completed
flags and configured timer minutes/seconds, and the restored nextRowId counter
is one greater than the maximum id in the saved sequence. -/
theorem save_load_roundtrip (rows : List RowState)
    (hne : rows ≠ []) (hpos : ∀ r ∈ rows, 0 < r.id) :
    ∃ rows' nid,
      loadRoundsFromStorage (StoredBlob.value (saveJson rows)) = LoadResult.loaded rows' nid ∧
      rows'.length = rows.length ∧
      rows'.map RowState.id = rows.map RowState.id ∧
      rows'.map RowState.completed = rows.map RowState.completed ∧
      rows'.map RowState.timerMin = rows.map RowState.timerMin ∧
      rows'.map RowState.timerSec = rows.map RowState.timerSec ∧
      (nid - 1) ∈ rows.map RowState.id ∧
      (∀ i ∈ rows.map RowState.id, i ≤ nid - 1) := by
  have hmapne : rows.map (fun r => roundToJson (storedOfRow r)) ≠ [] := by
    intro hc
    exact hne (List.map_eq_nil_iff.mp hc)
  have hempty : (rows.map (fun r => roundToJson (storedOfRow r))).isEmpty = false := by
    rw [List.isEmpty_eq_false]
    exact hmapne
  have hload : loadRoundsFromStorage (StoredBlob.value (saveJson rows)) =
      LoadResult.loaded (rows.map reloadedRow)
        (maxIdFold ((rows.map reloadedRow).map RowState.id) + 1) := by
    have h1 : loadRoundsFromStorage (StoredBlob.value (saveJson rows)) =
        match loadArr (rows.map (fun r => roundToJson (storedOfRow r))) with
        | Except.ok r => r
        | Except.error _ => LoadResult.useDefaults := rfl
    rw [h1]
    unfold loadArr
    rw [hempty]
    simp only [Bool.false_eq_true, if_false]
    rw [decodeEntries_saved]
  have hid : (rows.map reloadedRow).map RowState.id = rows.map RowState.id := by
    rw [List.map_map]
    simp only [Function.comp_def, reloadedRow_id]
  have hcomp : (rows.map reloadedRow).map RowState.completed = rows.map RowState.completed := by
    rw [List.map_map]
    simp only [Function.comp_def, reloadedRow_completed]
  have hmin : (rows.map reloadedRow).map RowState.timerMin = rows.map RowState.timerMin := by
    rw [List.map_map]
    simp only [Function.comp_def, reloadedRow_timerMin]
  have hsec : (rows.map reloadedRow).map RowState.timerSec = rows.map RowState.timerSec := by
    rw [List.map_map]
    simp only [Function.comp_def, reloadedRow_timerSec]
  refine ⟨rows.map reloadedRow, maxIdFold ((rows.map reloadedRow).map RowState.id) + 1,
    hload, by rw [List.length_map], hid, hcomp, hmin, hsec, ?_, ?_⟩
  · have hsimp : maxIdFold ((rows.map reloadedRow).map RowState.id) + 1 - 1 =
        maxIdFold (rows.map RowState.id) := by
      rw [hid]; omega
    rw [hsimp]
    apply maxIdFold_mem
    · intro hc
      exact hne (List.map_eq_nil_iff.mp hc)
    · intro i hi
      obtain ⟨r, hr, hri⟩ := List.mem_map.mp hi
      rw [← hri]
      exact hpos r hr
  · intro i hi
    have := maxIdFold_ge hi
    rw [hid]
    omega

def c1row1 : RowState :=
  { id := 1, gameName := "Guess the Movie", gameIcon := "M", prompt := "p1",
    resourceHTML := "r1", timerMin := 1, timerSec := 30, completed := false }

def c1row2 : RowState :=
  { id := 2, gameName := "Name That Scene", gameIcon := "N", prompt := "p2",
    resourceHTML := "r2", timerMin := 0, timerSec := 45, completed := true }

theorem save_load_roundtrip_witness :
    ([c1row1, c1row2] ≠ ([] : List RowState)) ∧
    (∀ r ∈ [c1row1, c1row2], 0 < r.id) ∧
    (∃ rows' nid,
      loadRoundsFromStorage (StoredBlob.value (saveJson [c1row1, c1row2])) =
        LoadResult.loaded rows' nid ∧
      rows'.length = [c1row1, c1row2].length ∧
      rows'.map RowState.id = [c1row1, c1row2].map RowState.id ∧
      rows'.map RowState.completed = [c1row1, c1row2].map RowState.completed ∧
      rows'.map RowState.timerMin = [c1row1, c1row2].map RowState.timerMin ∧
      rows'.map RowState.timerSec = [c1row1, c1row2].map RowState.timerSec ∧
      (nid - 1) ∈ [c1row1, c1row2].map RowState.id ∧
      (∀ i ∈ [c1row1, c1row2].map RowState.id, i ≤ nid - 1)) :=
  ⟨by simp, by decide, save_load_roundtrip [c1row1, c1row2] (by simp) (by decide)⟩

def c2row : RowState :=
  { id := 1, gameName := "Trivia", gameIcon := "T", prompt := "p",
    resourceHTML := "r", timerMin := 1, timerSec := 30, completed := false }

def c2s0 : AppState := { rows := [c2row], timers := [], nextRowId := 2 }

set_option maxRecDepth 20000

/-- C2: countdown correctness without drift.  Starting the timer of a round
configured for 1 minute 30 seconds and letting 90 ticks fire leaves the timer
expired: remainingSeconds 0 and not running; pausing after 30 ticks preserves
exactly 60 remaining seconds and restarting resumes from 60 without
re-initializing from the inputs.  The final conjunct states pause/resume
preservation for an arbitrary running timer. -/
theorem countdown_no_drift :
    (tlookup (ticksN (startTimer c2s0 1) 1 90).timers 1 =
      some { remainingSeconds := 0, isRunning := false }) ∧
    (tlookup (ticksN (startTimer c2s0 1) 1 30).timers 1 =
      some { remainingSeconds := 60, isRunning := true }) ∧
    (tlookup (pauseTimer (ticksN (startTimer c2s0 1) 1 30) 1).timers 1 =
      some { remainingSeconds := 60, isRunning := false }) ∧
    (tlookup (startTimer (pauseTimer (ticksN (startTimer c2s0 1) 1 30) 1) 1).timers 1 =
      some { remainingSeconds := 60, isRunning := true }) ∧
    (∀ (s : AppState) (rowId : Int) (t : Timer) (row : RowState),
      findRow s.rows rowId = some row →
      tlookup s.timers rowId = some t →
      t.isRunning = true → 0 < t.remainingSeconds →
      tlookup (pauseTimer s rowId).timers rowId = some { t with isRunning := false } ∧
      tlookup (startTimer (pauseTimer s rowId) rowId).timers rowId =
        some { t with isRunning := true }) := by
  refine ⟨by decide, by decide, by decide, by decide, ?_⟩
  intro s rowId t row hfind hlook hrun hpos
  have hpause : pauseTimer s rowId =
      { s with timers := tinsert s.timers rowId { t with isRunning := false } } := by
    unfold pauseTimer
    rw [hlook]
    dsimp only
    rw [hfind]
  constructor
  · rw [hpause]
    exact tlookup_tinsert_self _ _ _
  · rw [hpause]
    unfold startTimer
    have hfind2 : findRow ({ s with timers := tinsert s.timers rowId { t with isRunning := false } } : AppState).rows rowId = some row := hfind
    rw [hfind2]
    dsimp only
    rw [tlookup_tinsert_self]
    dsimp only
    rw [if_neg (show ¬(t.remainingSeconds = 0) by omega)]
    rw [if_neg (show ¬(t.remainingSeconds ≤ 0) by omega)]
    exact tlookup_tinsert_self _ _ _

theorem countdown_no_drift_witness :
    tlookup (pauseTimer (ticksN (startTimer c2s0 1) 1 30) 1).timers 1 =
      some { remainingSeconds := 60, isRunning := false } :=
  (countdown_no_drift.2.2.2.2 (ticksN (startTimer c2s0 1) 1 30) 1
    { remainingSeconds := 60, isRunning := true } c2row
    (by decide) (by decide) rfl (by decide)).1

/-- C3: timer state invariant.  From any table whose configured timer inputs
are non-negative (the inputs carry min=0 bounds) and no timers yet, every
state reachable by start, tick, pause, reset, finish and delete operations has
every timer with remainingSeconds at least 0, and any timer at 0 not
running. -/
theorem timer_state_invariant (rows0 : List RowState) (nid : Int) (ops : List TimerOp)
    (hconf : ∀ r ∈ rows0, 0 ≤ r.timerMin ∧ 0 ≤ r.timerSec) :
    ∀ p ∈ (applyTimerOps { rows := rows0, timers := [], nextRowId := nid } ops).timers,
      0 ≤ p.2.remainingSeconds ∧ (p.2.remainingSeconds = 0 → p.2.isRunning = false) := by
  have hinv : Inv { rows := rows0, timers := [], nextRowId := nid } := by
    refine ⟨hconf, ?_, ?_⟩
    · exact List.Pairwise.nil
    · intro p hp
      simp at hp
  have hfinal := inv_applyTimerOps hinv ops
  intro p hp
  exact ⟨(hfinal.2.2 p hp).1, (hfinal.2.2 p hp).2.1⟩

theorem timer_state_invariant_witness :
    (∀ r ∈ [c2row], 0 ≤ r.timerMin ∧ 0 ≤ r.timerSec) ∧
    (∀ p ∈ (applyTimerOps { rows := [c2row], timers := [], nextRowId := 2 }
        [TimerOp.start 1, TimerOp.tick 1, TimerOp.pause 1]).timers,
      0 ≤ p.2.remainingSeconds ∧ (p.2.remainingSeconds = 0 → p.2.isRunning = false)) :=
  ⟨by decide,
   timer_state_invariant [c2row] 2 [TimerOp.start 1, TimerOp.tick 1, TimerOp.pause 1] (by decide)⟩

def c4fieldsA : NewRoundFields :=
  { gameName := "A", gameIcon := "", prompt := "pa", resourceType := "text",
    resourcePath := "", timerMin := 0, timerSec := 15 }

def c4fieldsB : NewRoundFields :=
  { gameName := "B", gameIcon := "", prompt := "pb", resourceType := "text",
    resourcePath := "", timerMin := 0, timerSec := 15 }

/-- A state reachable through the program's own operations: add round A (id 1)
and round B (id 2), move B above A, then start both 15-second timers.  Display
order is then B, A while the timers map iterates id 1 before id 2. -/
def c4ex : AppState :=
  startTimer
    (startTimer
      (moveRowUp
        (addNewRound (addNewRound { rows := [], timers := [], nextRowId := 1 } c4fieldsA)
          c4fieldsB)
        2)
      1)
    2

/-- C4 counterexample: both running timers are at 15 seconds and round B
(id 2) is listed first in display order, yet the aggregator reports round A
(id 1) - the Object.entries ascending-id iteration order, not the round
display order the claim names. -/
theorem aggregator_tie_counterexample :
    c4ex.rows.map RowState.id = [2, 1] ∧
    runningTimersOf c4ex = [(1, 15), (2, 15)] ∧
    updateGlobalTimerDisplay c4ex = GlobalDisplay.active 1 "A" 15 := by decide

/-- C4 amended: the aggregator filters to running timers with positive
remaining seconds; if none remain it renders the fixed no-active state;
otherwise it selects the entry with minimal remaining seconds, breaking ties
in favour of the smallest round id (the first entry of the ascending-id
iteration order of the timers map), which coincides with round display order
only while rows are in id order; the selected round is rendered with its
game name. -/
theorem aggregator_selects_min_earliest_id (s : AppState) (hsort : sortedKeys s.timers) :
    (runningTimersOf s = [] → updateGlobalTimerDisplay s = GlobalDisplay.noActive) ∧
    (∀ x xs, runningTimersOf s = x :: xs →
      (reduceUrgent x xs ∈ x :: xs) ∧
      (∀ p ∈ x :: xs, (reduceUrgent x xs).2 ≤ p.2) ∧
      (∀ p ∈ x :: xs, p.2 = (reduceUrgent x xs).2 → (reduceUrgent x xs).1 ≤ p.1) ∧
      (∀ row, findRow s.rows (reduceUrgent x xs).1 = some row →
        updateGlobalTimerDisplay s =
          GlobalDisplay.active (reduceUrgent x xs).1 row.gameName (reduceUrgent x xs).2)) := by
  constructor
  · intro h
    unfold updateGlobalTimerDisplay
    rw [h]
  · intro x xs hxx
    have hsorted : (x :: xs).Pairwise (fun a b => a.1 < b.1) := by
      have hs := runningTimersOf_sorted (s := s) hsort
      rw [hxx] at hs
      exact hs
    refine ⟨?_, reduceUrgent_min xs x, reduceUrgent_tie xs x hsorted, ?_⟩
    · rcases reduceUrgent_eq_or xs x with h | ⟨h, _⟩
      · rw [h]; exact List.mem_cons_self _ _
      · exact List.mem_cons_of_mem _ h
    · intro row hrow
      unfold updateGlobalTimerDisplay
      rw [hxx]
      show (match findRow s.rows (reduceUrgent x xs).1 with
            | none => GlobalDisplay.unchangedStaleRow
            | some row => GlobalDisplay.active (reduceUrgent x xs).1 row.gameName
                (reduceUrgent x xs).2) =
          GlobalDisplay.active (reduceUrgent x xs).1 row.gameName (reduceUrgent x xs).2
      rw [hrow]

theorem aggregator_selects_min_earliest_id_witness :
    runningTimersOf c4ex = [(1, 15), (2, 15)] ∧ (reduceUrgent (1, 15) [(2, 15)]).1 ≤ 2 :=
  ⟨by decide,
   (((aggregator_selects_min_earliest_id c4ex (by unfold sortedKeys; decide)).2
      (1, 15) [(2, 15)] (by decide)).2.2.1) (2, 15) (by decide) (by decide)⟩

def c5row : RowState :=
  { id := 1, gameName := "Trivia", gameIcon := "T", prompt := "p",
    resourceHTML := "r", timerMin := 2, timerSec := 0, completed := false }

/-- C5 counterexample: the snapshot written by save for a concrete round list
is a bare array under the single key gameNightRounds; its only object field
names are the eight round fields, and no version-like tag appears anywhere in
durable storage, although STORAGE_SCHEMA_VERSION is declared in the code. -/
theorem version_tag_counterexample :
    (saveWrites [c5row]).map Prod.fst = [STORAGE_KEY] ∧
    (saveJson [c5row]).fieldNames = roundFieldNames ∧
    "version" ∉ roundFieldNames ∧
    "schemaVersion" ∉ roundFieldNames ∧
    "STORAGE_SCHEMA_VERSION" ∉ roundFieldNames := by decide

/-- C5 amended: save performs exactly one durable write, the rounds array
under STORAGE_KEY; every object field name in any snapshot is one of the eight
round fields, so no schema-version tag accompanies the snapshot (the
STORAGE_SCHEMA_VERSION constant is declared but never recorded). -/
theorem save_records_no_version_tag (rows : List RowState) :
    (saveWrites rows).map Prod.fst = [STORAGE_KEY] ∧
    (∀ name ∈ (saveJson rows).fieldNames, name ∈ roundFieldNames) ∧
    "version" ∉ roundFieldNames ∧
    "schemaVersion" ∉ roundFieldNames :=
  ⟨rfl, saveJson_fieldNames rows, by decide, by decide⟩

theorem save_records_no_version_tag_witness :
    (saveWrites [c5row]).map Prod.fst = [STORAGE_KEY] ∧ "id" ∈ roundFieldNames :=
  ⟨(save_records_no_version_tag [c5row]).1,
   (save_records_no_version_tag [c5row]).2.1 "id" (by decide)⟩

def c6rowA : RowState :=
  { id := 1, gameName := "A", gameIcon := "G", prompt := "p", resourceHTML := "r",
    timerMin := 1, timerSec := 0, completed := true }

def c6rowB : RowState :=
  { id := 2, gameName := "B", gameIcon := "G", prompt := "p", resourceHTML := "r",
    timerMin := 1, timerSec := 0, completed := true }

def c6s : AppState := { rows := [c6rowA, c6rowB], timers := [], nextRowId := 3 }

/-- C6 counterexample: with both rounds already completed the state is fully
complete, yet the progress recompute performed after deleting round 2 (a
recompute whose pre-state was already fully complete, with no transition into
completion) triggers the celebration again. -/
theorem celebration_retrigger_counterexample :
    (∀ r ∈ c6s.rows, r.completed = true) ∧
    (updateProgress c6s.rows).celebrated = true ∧
    (updateProgress (deleteRow c6s 2).rows).celebrated = true := by decide

/-- C6 amended: the celebratory pulse fires on every progress recompute whose
post-state satisfies completedCount == totalCount && totalCount > 0 - there is
no once-per-transition guard, so a recompute in a state that was already fully
complete (such as the one after deleting a completed round from a fully
complete list) triggers it again. -/
theorem celebration_fires_on_every_complete_recompute (s : AppState) (rowId : Int)
    (hall : ∀ r ∈ s.rows, r.completed = true)
    (hsurv : ∃ r ∈ s.rows, r.id ≠ rowId) :
    (updateProgress s.rows).celebrated = true ∧
    (updateProgress (deleteRow s rowId).rows).celebrated = true := by
  obtain ⟨r, hr, hrne⟩ := hsurv
  constructor
  · exact celebrates_of_all_completed hall (List.ne_nil_of_mem hr)
  · apply celebrates_of_all_completed
    · intro q hq
      exact hall q (List.mem_of_mem_filter hq)
    · have hrmem : r ∈ (deleteRow s rowId).rows :=
        List.mem_filter_of_mem hr (by simpa using hrne)
      exact List.ne_nil_of_mem hrmem

theorem celebration_fires_on_every_complete_recompute_witness :
    (updateProgress c6s.rows).celebrated = true ∧
    (updateProgress (deleteRow c6s 2).rows).celebrated = true :=
  celebration_fires_on_every_complete_recompute c6s 2 (by decide)
    ⟨c6rowA, by decide, by decide⟩

/-- C7: urgency classification after a tick - 31 is normal, 30 and 11 are
warning, 10 is danger, 0 is expired; in general normal is strictly above 30,
warning is 11 through 30 inclusive, danger is 1 through 10 inclusive. -/
theorem urgency_thresholds :
    tickUrgency 31 = UrgencyTier.normal ∧
    tickUrgency 30 = UrgencyTier.warning ∧
    tickUrgency 11 = UrgencyTier.warning ∧
    tickUrgency 10 = UrgencyTier.danger ∧
    tickUrgency 0 = UrgencyTier.expired ∧
    (∀ r : Int, 30 < r → tickUrgency r = UrgencyTier.normal) ∧
    (∀ r : Int, 11 ≤ r → r ≤ 30 → tickUrgency r = UrgencyTier.warning) ∧
    (∀ r : Int, 1 ≤ r → r ≤ 10 → tickUrgency r = UrgencyTier.danger) := by
  refine ⟨by decide, by decide, by decide, by decide, by decide, ?_, ?_, ?_⟩
  · intro r h
    unfold tickUrgency
    rw [if_neg (by omega), if_neg (by omega), if_neg (by omega)]
  · intro r h1 h2
    unfold tickUrgency
    rw [if_neg (by omega), if_pos (by omega)]
  · intro r h1 h2
    unfold tickUrgency
    rw [if_pos (by omega)]

theorem urgency_thresholds_witness :
    tickUrgency 31 = UrgencyTier.normal ∧
    tickUrgency 45 = UrgencyTier.normal ∧
    tickUrgency 20 = UrgencyTier.warning ∧
    tickUrgency 5 = UrgencyTier.danger :=
  ⟨urgency_thresholds.1,
   urgency_thresholds.2.2.2.2.2.1 45 (by omega),
   urgency_thresholds.2.2.2.2.2.2.1 20 (by omega) (by omega),
   urgency_thresholds.2.2.2.2.2.2.2 5 (by omega) (by omega)⟩

/-- C8: id monotonicity and non-reuse.  After a successful load (positive ids
per the data model), the first valid add assigns id M+1 where M is the maximum
loaded id; and for every sequence of add and delete operations in the session,
no add ever assigns an id that was live at any earlier point (the ghost
collision flag stays false). -/
theorem id_monotonic_no_reuse (b : StoredBlob) (rows' : List RowState) (nid : Int)
    (hload : loadRoundsFromStorage b = LoadResult.loaded rows' nid)
    (hne : rows' ≠ []) (hpos : ∀ r ∈ rows', 0 < r.id) :
    (∀ f : NewRoundFields,
      addNewRound { rows := rows', timers := [], nextRowId := nid } f ≠
        { rows := rows', timers := [], nextRowId := nid } →
      ∃ nr : RowState,
        (addNewRound { rows := rows', timers := [], nextRowId := nid } f).rows =
          rows' ++ [nr] ∧
        nr.id = nid ∧
        (nr.id - 1) ∈ rows'.map RowState.id ∧
        (∀ i ∈ rows'.map RowState.id, i ≤ nr.id - 1)) ∧
    (∀ ops : List EditOp,
      (applyEdits
        { app := { rows := rows', timers := [], nextRowId := nid },
          everLive := rows'.map RowState.id, collision := false } ops).collision = false) := by
  have hnid := loaded_nextRowId hload
  have hmem : maxIdFold (rows'.map RowState.id) ∈ rows'.map RowState.id := by
    apply maxIdFold_mem
    · intro hc
      exact hne (List.map_eq_nil_iff.mp hc)
    · intro i hi
      obtain ⟨r, hr, hri⟩ := List.mem_map.mp hi
      rw [← hri]
      exact hpos r hr
  constructor
  · intro f hchanged
    rcases addNewRound_cases { rows := rows', timers := [], nextRowId := nid } f with
      heq | ⟨hn, nr, hnr, hrows⟩
    · exact absurd heq hchanged
    · have hnr' : nr.id = nid := hnr
      refine ⟨nr, hrows, hnr', ?_, ?_⟩
      · rw [hnr', hnid]
        have harith : maxIdFold (rows'.map RowState.id) + 1 - 1 =
            maxIdFold (rows'.map RowState.id) := by omega
        rw [harith]
        exact hmem
      · intro i hi
        have := maxIdFold_ge hi
        rw [hnr', hnid]
        omega
  · intro ops
    have hgood : SGood
        { app := { rows := rows', timers := [], nextRowId := nid },
          everLive := rows'.map RowState.id, collision := false } := by
      constructor
      · intro i hi
        have hi' : i ∈ rows'.map RowState.id := hi
        have := maxIdFold_ge hi'
        show i < nid
        omega
      · rfl
    exact (sgood_applyEdits hgood ops).2

def c8row1 : RowState :=
  { id := 1, gameName := "R1", gameIcon := "G", prompt := "q1", resourceHTML := "x1",
    timerMin := 1, timerSec := 0, completed := false }

def c8row2 : RowState :=
  { id := 2, gameName := "R2", gameIcon := "G", prompt := "q2", resourceHTML := "x2",
    timerMin := 0, timerSec := 30, completed := true }

def c8fields : NewRoundFields :=
  { gameName := "New", gameIcon := "", prompt := "np", resourceType := "text",
    resourcePath := "", timerMin := 1, timerSec := 0 }

theorem id_monotonic_no_reuse_witness :
    (applyEdits
      { app := { rows := [reloadedRow c8row1, reloadedRow c8row2], timers := [], nextRowId := 3 },
        everLive := [reloadedRow c8row1, reloadedRow c8row2].map RowState.id,
        collision := false } [EditOp.del 2, EditOp.add c8fields]).collision = false :=
  (id_monotonic_no_reuse (StoredBlob.value (saveJson [c8row1, c8row2]))
    [reloadedRow c8row1, reloadedRow c8row2] 3 (by decide) (by simp) (by decide)).2
    [EditOp.del 2, EditOp.add c8fields]

/-- C9: load fails closed.  No snapshot, an unparsable snapshot, a parsed
value that is not an array, and an empty array all yield the use-defaults
outcome; and every exception inside the load body (the error case of loadBody)
is caught and mapped to use-defaults rather than propagated to the caller. -/
theorem load_fails_closed (b : StoredBlob) :
    (b = StoredBlob.absent → loadRoundsFromStorage b = LoadResult.useDefaults) ∧
    (b = StoredBlob.malformed → loadRoundsFromStorage b = LoadResult.useDefaults) ∧
    (∀ j, b = StoredBlob.value j → (∀ entries, j ≠ Json.arr entries) →
      loadRoundsFromStorage b = LoadResult.useDefaults) ∧
    (b = StoredBlob.value (Json.arr []) → loadRoundsFromStorage b = LoadResult.useDefaults) ∧
    (∀ e, loadBody b = Except.error e → loadRoundsFromStorage b = LoadResult.useDefaults) := by
  refine ⟨?_, ?_, ?_, ?_, ?_⟩
  · intro h; subst h; rfl
  · intro h; subst h; rfl
  · intro j hb hnot
    subst hb
    cases j with
    | arr entries => exact absurd rfl (hnot entries)
    | null => rfl
    | bool v => rfl
    | num v => rfl
    | str v => rfl
    | obj v => rfl
  · intro h; subst h; rfl
  · intro e h
    unfold loadRoundsFromStorage
    rw [h]

theorem load_fails_closed_witness :
    loadRoundsFromStorage StoredBlob.absent = LoadResult.useDefaults ∧
    loadRoundsFromStorage StoredBlob.malformed = LoadResult.useDefaults ∧
    loadRoundsFromStorage (StoredBlob.value (Json.num 5)) = LoadResult.useDefaults ∧
    loadRoundsFromStorage (StoredBlob.value (Json.arr [])) = LoadResult.useDefaults ∧
    loadRoundsFromStorage (StoredBlob.value (Json.arr [Json.null])) = LoadResult.useDefaults :=
  ⟨(load_fails_closed StoredBlob.absent).1 rfl,
   (load_fails_closed StoredBlob.malformed).2.1 rfl,
   (load_fails_closed (StoredBlob.value (Json.num 5))).2.2.1 (Json.num 5) rfl
     (fun _ h => Json.noConfusion h),
   (load_fails_closed (StoredBlob.value (Json.arr []))).2.2.2.1 rfl,
   (load_fails_closed (StoredBlob.value (Json.arr [Json.null]))).2.2.2.2
     "TypeError: cannot read properties of null" rfl⟩

/-- C10: frame effect of unchecking.  When toggleDone runs for an existing
round with the checkbox now false, the only round-state change is that round's
completed flag becoming false: the timers map and the nextRowId counter are
untouched, every other row is unchanged, pauseTimer is not called, no focus
advance (scrollToNextUnchecked) happens, while the progress recompute and the
persistence write still run - exactly as they do on the transition to true. -/
theorem uncheck_frame_effect (s : AppState) (rowId : Int) (row : RowState)
    (hfind : findRow s.rows rowId = some row) :
    ((toggleDone s rowId false).1.timers = s.timers) ∧
    ((toggleDone s rowId false).1.nextRowId = s.nextRowId) ∧
    ((toggleDone s rowId false).1.rows = setCompleted s.rows rowId false) ∧
    (∀ r ∈ s.rows, r.id ≠ rowId → r ∈ (toggleDone s rowId false).1.rows) ∧
    ((toggleDone s rowId false).2 =
      { pauseCalled := false, scrollCalled := false,
        progressCalled := true, storageWriteCalled := true }) ∧
    ((toggleDone s rowId true).2.progressCalled = true) ∧
    ((toggleDone s rowId true).2.storageWriteCalled = true) := by
  have hfalse : toggleDone s rowId false =
      ({ s with rows := setCompleted s.rows rowId false },
       { pauseCalled := false, scrollCalled := false,
         progressCalled := true, storageWriteCalled := true }) := by
    unfold toggleDone
    rw [hfind]
    rfl
  have htrue2 : (toggleDone s rowId true).2 =
      { pauseCalled := true, scrollCalled := true,
        progressCalled := true, storageWriteCalled := true } := by
    unfold toggleDone
    rw [hfind]
    rfl
  refine ⟨by rw [hfalse], by rw [hfalse], by rw [hfalse], ?_,
    by rw [hfalse], by rw [htrue2], by rw [htrue2]⟩
  intro r hr hne
  rw [hfalse]
  dsimp only
  unfold setCompleted
  exact List.mem_map.mpr ⟨r, hr, by rw [if_neg hne]⟩

def c10row : RowState :=
  { id := 1, gameName := "Done", gameIcon := "G", prompt := "p", resourceHTML := "r",
    timerMin := 0, timerSec := 20, completed := true }

def c10s : AppState :=
  { rows := [c10row],
    timers := [(1, { remainingSeconds := 9, isRunning := false })], nextRowId := 2 }

theorem uncheck_frame_effect_witness :
    (toggleDone c10s 1 false).1.timers = c10s.timers ∧
    (toggleDone c10s 1 false).2 =
      { pauseCalled := false, scrollCalled := false,
        progressCalled := true, storageWriteCalled := true } :=
  ⟨(uncheck_frame_effect c10s 1 c10row rfl).1,
   (uncheck_frame_effect c10s 1 c10row rfl).2.2.2.2.1⟩

end GameNight
